import Mathlib

/-!
Verification model of the rpk package: a JSON-over-HTTP RPC bridge that
exposes the exported methods of a Go object.  The definitions below are a
shallow embedding of the source file containing `newFuncs`, `checkInputs`,
`checkOutputs`, `isError`, `call`, `jsonError` and `NewHandlerFunc`, together
with a model of the parts of `encoding/json` and `reflect` the code relies on.

Modelling conventions:
* a `reflect.Value` of an invocable method is the structure `Method`:
  its input types (`typ.NumIn()` / `typ.In(0)`), its output types
  (`typ.NumOut()` / `typ.Out(i)`) and the bound callable `impl`;
* the values flowing through `json.Unmarshal` / `Call` / `json.Marshal`
  live in the inductive `GoVal`; each value returned by `Call` carries
  its static type, as a `reflect.Value` does, in the pair `RVal`;
* Go map semantics for the registry are a key/value list with `List.lookup`;
  the unspecified iteration order of `range` over a map is modelled by
  quantifying over an enumeration that is a permutation of the keys;
* `encoding/json` is modelled by a small JSON parser plus per-type decode
  and encode functions covering the types the package exercises.
-/

/-- Parsed JSON documents. -/
inductive Json where
  | null
  | bool (b : Bool)
  | num (n : Int)
  | str (s : String)
  | arr (xs : List Json)
  | obj (fields : List (String × Json))
  deriving Repr

/-- Skips JSON whitespace. -/
def skipWs : List Char → List Char
  | c :: rest =>
    if c == ' ' || c == '\t' || c == '\n' || c == '\r' then skipWs rest
    else c :: rest
  | [] => []

/-- Splits a leading run of decimal digits from the input. -/
def takeDigits : List Char → (List Char × List Char)
  | [] => ([], [])
  | c :: r =>
    if c.isDigit then
      let (ds, rest) := takeDigits r
      (c :: ds, rest)
    else ([], c :: r)

/-- Numeric value of a digit string. -/
def digitsToNat (ds : List Char) : Nat :=
  ds.foldl (fun acc c => acc * 10 + (c.toNat - 48)) 0

/-- Reads the body of a JSON string literal up to its closing quote,
resolving the simple escape sequences. -/
def parseStrChars : List Char → Option (List Char × List Char)
  | [] => none
  | '"' :: rest => some ([], rest)
  | '\\' :: c :: rest =>
    match parseStrChars rest with
    | none => none
    | some (s, r) =>
      match c with
      | '"' => some ('"' :: s, r)
      | '\\' => some ('\\' :: s, r)
      | '/' => some ('/' :: s, r)
      | 'n' => some ('\n' :: s, r)
      | 't' => some ('\t' :: s, r)
      | 'r' => some ('\r' :: s, r)
      | _ => none
  | c :: rest =>
    match parseStrChars rest with
    | none => none
    | some (s, r) => some (c :: s, r)

mutual

/-- Parses one JSON value; the fuel bounds nesting depth. -/
def parseVal : Nat → List Char → Option (Json × List Char)
  | 0, _ => none
  | fuel + 1, cs =>
    match skipWs cs with
    | 'n' :: 'u' :: 'l' :: 'l' :: r => some (.null, r)
    | 't' :: 'r' :: 'u' :: 'e' :: r => some (.bool true, r)
    | 'f' :: 'a' :: 'l' :: 's' :: 'e' :: r => some (.bool false, r)
    | '"' :: r =>
      match parseStrChars r with
      | none => none
      | some (s, r2) => some (.str (String.mk s), r2)
    | '[' :: r =>
      match skipWs r with
      | ']' :: r2 => some (.arr [], r2)
      | r2 =>
        match parseArrItems fuel r2 with
        | none => none
        | some (xs, r3) => some (.arr xs, r3)
    | '{' :: r =>
      match skipWs r with
      | '}' :: r2 => some (.obj [], r2)
      | r2 =>
        match parseObjItems fuel r2 with
        | none => none
        | some (fs, r3) => some (.obj fs, r3)
    | '-' :: r =>
      match takeDigits r with
      | ([], _) => none
      | (ds, r2) => some (.num (-(digitsToNat ds : Int)), r2)
    | c :: r =>
      if c.isDigit then
        match takeDigits (c :: r) with
        | ([], _) => none
        | (ds, r2) => some (.num (digitsToNat ds : Int), r2)
      else none
    | [] => none

/-- Parses the comma-separated items of a JSON array after its first
item position. -/
def parseArrItems : Nat → List Char → Option (List Json × List Char)
  | 0, _ => none
  | fuel + 1, cs =>
    match parseVal fuel cs with
    | none => none
    | some (j, r) =>
      match skipWs r with
      | ',' :: r2 =>
        match parseArrItems fuel r2 with
        | none => none
        | some (js, r3) => some (j :: js, r3)
      | ']' :: r2 => some ([j], r2)
      | _ => none

/-- Parses the key/value members of a JSON object after its first
member position. -/
def parseObjItems : Nat → List Char → Option (List (String × Json) × List Char)
  | 0, _ => none
  | fuel + 1, cs =>
    match skipWs cs with
    | '"' :: r =>
      match parseStrChars r with
      | none => none
      | some (k, r1) =>
        match skipWs r1 with
        | ':' :: r2 =>
          match parseVal fuel r2 with
          | none => none
          | some (j, r3) =>
            match skipWs r3 with
            | ',' :: r4 =>
              match parseObjItems fuel r4 with
              | none => none
              | some (fs, r5) => some ((String.mk k, j) :: fs, r5)
            | '}' :: r4 => some ([(String.mk k, j)], r4)
            | _ => none
        | _ => none
    | _ => none

end

/-- Parses a complete JSON document: one value followed only by
whitespace, as `json.Unmarshal` requires. -/
def parseJson (s : String) : Option Json :=
  match parseVal (s.length + 1) s.data with
  | none => none
  | some (j, rest) =>
    match skipWs rest with
    | [] => some j
    | _ => none

/-- The Go types the package manipulates through `reflect`. -/
inductive GoType where
  | tInt
  | tString
  | tThing
  | tErr
  | tPtr (t : GoType)
  | tMapSS
  | tFunc
  deriving Repr, DecidableEq

/-- The Go values flowing through the dispatcher.  `vErr none` is a nil
error interface, `vPtr none` a nil pointer.  `vThing` is the two-field
struct used by the package's test receiver. -/
inductive GoVal where
  | vInt (n : Int)
  | vStr (s : String)
  | vThing (i : Int) (s : String)
  | vErr (msg : Option String)
  | vPtr (v : Option GoVal)
  | vMapSS (kv : List (String × String))
  | vFunc
  deriving Repr

/-- A `reflect.Value` as returned by `Call`: a value together with its
static type. -/
abbrev RVal := GoType × GoVal

/-- Model of `isError` from the source: reflective identity with the
error interface type. -/
def isError : GoType → Bool
  | .tErr => true
  | _ => false

/-- Model of `reflect.Value.IsNil` on the nilable values the dispatcher
inspects. -/
def isNilV : GoVal → Bool
  | .vErr none => true
  | .vPtr none => true
  | _ => false

/-- Model of `fmt.Sprintf` with verb v on a value; on a non-nil error it
yields the error's message, which is the only case the dispatcher's error
path exercises. -/
def goFmt : GoVal → String
  | .vInt n => toString n
  | .vStr s => s
  | .vThing i s => "\x7b" ++ toString i ++ " " ++ s ++ "\x7d"
  | .vErr (some m) => m
  | .vErr none => "<nil>"
  | .vPtr (some v) => "&" ++ goFmt v
  | .vPtr none => "<nil>"
  | .vMapSS _ => "map[]"
  | .vFunc => "func"

/-- JSON escaping of one character, as `encoding/json` performs on the
characters this model covers. -/
def escChar (c : Char) : List Char :=
  if c == '"' then ['\\', '"']
  else if c == '\\' then ['\\', '\\']
  else if c == '\n' then ['\\', 'n']
  else if c == '\t' then ['\\', 't']
  else if c == '\r' then ['\\', 'r']
  else [c]

/-- JSON string literal for s, quotes included. -/
def jsonQuote (s : String) : String :=
  String.mk ('"' :: (s.data.map escChar).flatten ++ ['"'])

/-- Codepoint-wise string order, the model of Go's bytewise string
comparison used when `json.Marshal` sorts map keys. -/
def leChars : List Char → List Char → Bool
  | [], _ => true
  | _ :: _, [] => false
  | a :: as, b :: bs =>
    if a.toNat < b.toNat then true
    else if b.toNat < a.toNat then false
    else leChars as bs

/-- String order on the character lists. -/
def leStr (a b : String) : Bool :=
  leChars a.data b.data

/-- Insertion step for sorting map entries by key, as `json.Marshal`
sorts Go map keys. -/
def insertPair (p : String × String) : List (String × String) → List (String × String)
  | [] => [p]
  | q :: rest => if leStr p.1 q.1 then p :: q :: rest else q :: insertPair p rest

/-- Sorts map entries by key. -/
def sortPairs : List (String × String) → List (String × String)
  | [] => []
  | p :: rest => insertPair p (sortPairs rest)

/-- Model of `json.Marshal` on the values the package can return;
`none` models a serialization failure (e.g. a func value). -/
def marshal : GoVal → Option String
  | .vInt n => some (toString n)
  | .vStr s => some (jsonQuote s)
  | .vThing i s =>
    some ("\x7b\"I\":" ++ toString i ++ ",\"S\":" ++ jsonQuote s ++ "\x7d")
  | .vErr none => some "null"
  | .vErr (some _) => some "\x7b\x7d"
  | .vPtr none => some "null"
  | .vPtr (some v) => marshal v
  | .vMapSS kv =>
    some ("\x7b" ++
      String.intercalate "," ((sortPairs kv).map fun p => jsonQuote p.1 ++ ":" ++ jsonQuote p.2)
      ++ "\x7d")
  | .vFunc => none

/-- Character-wise lowercasing, the model of `strings.ToLower` and of the
case folding `encoding/json` applies when matching field names. -/
def lowerStr (s : String) : String :=
  String.mk (s.data.map Char.toLower)

/-- Decodes one member of a JSON object into the two-field struct,
matching keys case-insensitively as `encoding/json` does; an unknown key
and a null member are no-ops. -/
def decodeThingField (k : String) (v : Json) (i : Int) (s : String) :
    Except String (Int × String) :=
  if lowerStr k == "i" then
    match v with
    | .num n => .ok (n, s)
    | .null => .ok (i, s)
    | _ => .error "cannot unmarshal value into field I of type int"
  else if lowerStr k == "s" then
    match v with
    | .str t => .ok (i, t)
    | .null => .ok (i, s)
    | _ => .error "cannot unmarshal value into field S of type string"
  else .ok (i, s)

/-- Decodes the members of a JSON object into the two-field struct; later
members overwrite earlier ones. -/
def decodeThingFields : List (String × Json) → Int → String → Except String GoVal
  | [], i, s => .ok (.vThing i s)
  | (k, v) :: rest, i, s =>
    match decodeThingField k v i s with
    | .error e => .error e
    | .ok (i2, s2) => decodeThingFields rest i2 s2

/-- Decodes the members of a JSON object into a string-to-string map. -/
def decodeMapFields : List (String × Json) → List (String × String) →
    Except String GoVal
  | [], acc => .ok (.vMapSS acc)
  | (k, v) :: rest, acc =>
    match v with
    | .str t => decodeMapFields rest (acc ++ [(k, t)])
    | .null => decodeMapFields rest (acc ++ [(k, "")])
    | _ => .error "cannot unmarshal value into map value of type string"

/-- Decodes a parsed JSON value into a Go value of the given type,
following the `encoding/json` rules the package relies on: a JSON null
into a pointer yields a nil pointer, a null into a non-pointer leaves the
zero value, a type mismatch is an error. -/
def decodeJson : GoType → Json → Except String GoVal
  | .tPtr _, .null => .ok (.vPtr none)
  | .tPtr t, j =>
    match decodeJson t j with
    | .error e => .error e
    | .ok v => .ok (.vPtr (some v))
  | .tInt, .null => .ok (.vInt 0)
  | .tInt, .num n => .ok (.vInt n)
  | .tInt, _ => .error "cannot unmarshal value into Go value of type int"
  | .tString, .null => .ok (.vStr "")
  | .tString, .str s => .ok (.vStr s)
  | .tString, _ => .error "cannot unmarshal value into Go value of type string"
  | .tThing, .null => .ok (.vThing 0 "")
  | .tThing, .obj fields => decodeThingFields fields 0 ""
  | .tThing, _ => .error "cannot unmarshal value into Go value of type thing"
  | .tErr, .null => .ok (.vErr none)
  | .tErr, _ => .error "cannot unmarshal value into Go value of type error"
  | .tMapSS, .null => .ok (.vMapSS [])
  | .tMapSS, .obj fields => decodeMapFields fields []
  | .tMapSS, _ => .error "cannot unmarshal value into Go value of type map"
  | .tFunc, _ => .error "unsupported type: func"

/-- Model of `json.Unmarshal(param, new(t))`: parse the raw payload and
decode it into a freshly allocated value of type t.  An empty or
otherwise malformed payload is a parse error for every target type. -/
def unmarshal (t : GoType) (param : String) : Except String GoVal :=
  match parseJson param with
  | none => .error "invalid JSON input"
  | some j => decodeJson t j

/-- The reflection of one bound method: its input types (`typ.NumIn()`,
`typ.In(0)`), its output types (`typ.NumOut()`, `typ.Out(i)`), and the
bound callable itself, which receives the decoded argument (or none for a
zero-input method) and returns typed output values as `Call` does. -/
structure Method where
  ins : List GoType
  outs : List GoType
  impl : Option GoVal → List RVal

/-- The registry type `funcs`: a map from function name to the reflection
of that function, modelled as a key/value list with Go-map lookup. -/
abbrev funcs := List (String × Method)

/-- Model of `jsonError`: `json.Marshal` of the one-entry string map
carrying the formatted message under the key error. -/
def jsonError (msg : String) : String :=
  (marshal (.vMapSS [("error", msg)])).getD ""

/-- The exportedness test of `newFuncs`: a name is skipped when its first
character is unchanged by lowercasing. -/
def isUnexported (name : String) : Bool :=
  match name.data with
  | [] => true
  | c :: _ => c.toLower == c

/-- Model of `checkInputs`: at most one input argument. -/
def checkInputs (ins : List GoType) : Option String :=
  if ins.length > 1 then
    some ("Must have 0 or 1 inputs. It has " ++ toString ins.length ++ ".")
  else none

/-- Model of `checkOutputs`: at most two outputs, and with two outputs
the second must be the error type. -/
def checkOutputs (outs : List GoType) : Option String :=
  if outs.length > 2 then
    some ("More than 2 outputs: " ++ toString outs.length)
  else
    match outs with
    | [_, t2] =>
      if !(isError t2) then some "Second output should be an error." else none
    | _ => none

/-- The loop of `newFuncs` over the receiver's method set, carrying the
registry built so far: unexported names are skipped, a failed check aborts
with the wrapped error, a passing method is registered. -/
def newFuncsAux : List (String × Method) → funcs → Except String funcs
  | [], acc => .ok acc
  | (name, m) :: rest, acc =>
    if isUnexported name then newFuncsAux rest acc
    else
      match checkInputs m.ins with
      | some e => .error ("Function '" ++ name ++ "': " ++ e)
      | none =>
        match checkOutputs m.outs with
        | some e => .error ("Function '" ++ name ++ "': " ++ e)
        | none => newFuncsAux rest (acc ++ [(name, m)])

/-- Model of `newFuncs`: builds the registry from the reflected method
set of the receiver (the list of name/method pairs `reflect` enumerates). -/
def newFuncs (ms : List (String × Method)) : Except String funcs :=
  newFuncsAux ms []

/-- The tail of `call` (its final lines): with an error output present and
non-nil, the error payload from the error's message; otherwise the encoded
value output if one is present, or the empty success payload. -/
def finishOutputs (outVal outErr : Option RVal) : String :=
  match outErr with
  | some e =>
    if isNilV e.2 then
      match outVal with
      | some v =>
        match marshal v.2 with
        | some s => s
        | none => jsonError "Error encoding result: unsupported type"
      | none => ""
    else jsonError (goFmt e.2)
  | none =>
    match outVal with
    | some v =>
      match marshal v.2 with
      | some s => s
      | none => jsonError "Error encoding result: unsupported type"
    | none => ""

/-- The output-classification step of `call` (sort out outputs): two
outputs are value then error; a single output is classified by its type
through `isError`; no outputs leave both invalid. -/
def sortOutputs (out : List RVal) : String :=
  match out with
  | [v, e] => finishOutputs (some v) (some e)
  | [a] =>
    if isError a.1 then finishOutputs none (some a)
    else finishOutputs (some a) none
  | _ => finishOutputs none none

/-- Model of `call`: look the function up, prepare its argument from the
raw payload (decoding into a fresh instance of the input type when the
function has one input, rejecting a non-empty payload otherwise), invoke
it, and classify the outputs. -/
def call (fs : funcs) (funcName param : String) : String :=
  match List.lookup funcName fs with
  | none => jsonError ("No such function '" ++ funcName ++ "'.")
  | some f =>
    match f.ins with
    | [inType] =>
      match unmarshal inType param with
      | .error e => jsonError ("Error decoding JSON: " ++ e)
      | .ok v => sortOutputs (f.impl (some v))
    | _ =>
      if param != "" then
        jsonError ("Function '" ++ funcName ++ "' does not accept parameters.")
      else
        sortOutputs (f.impl none)

/-- JSON array of strings, as the handler's encoder writes the function
names. -/
def jsonStrArray (xs : List String) : String :=
  "[" ++ String.intercalate "," (xs.map jsonQuote) ++ "]"

/-- Model of the handler returned by `NewHandlerFunc`, as a function from
the request's func and param fields to the response body.  The names
gathered by ranging over the registry map arrive in an unspecified order:
the enumeration enum stands for that order and theorems quantify over the
permutations of the key set.  The encoder terminates the array with a
newline. -/
def handlerResponse (f : funcs) (enum : List String) (funcName param : String) :
    String :=
  if funcName == "funcs" then jsonStrArray enum ++ "\n"
  else call f funcName param

/-- The helper from the package's test file: failure responses are
recognized by their error-object prefix (`strings.HasPrefix`). -/
def isJsonError (s : String) : Bool :=
  "\x7b\"error\":".data.isPrefixOf s.data

/-- The dispatcher's argument-preparation relation, read off the two
branches of `call`: with one input the payload decodes to the argument
value; with any other arity the payload is empty and no argument is
passed. -/
def prepared (m : Method) (param : String) (arg : Option GoVal) : Prop :=
  (∃ t v, m.ins = [t] ∧ unmarshal t param = .ok v ∧ arg = some v) ∨
  (m.ins.length ≠ 1 ∧ param = "" ∧ arg = none)

/-- The calling convention on signatures, as the claims state it: at most
one input, at most two outputs, and a second of two outputs must be
error-typed. -/
def conforming (m : Method) : Bool :=
  m.ins.length ≤ 1 && m.outs.length ≤ 2 &&
    (match m.outs with
     | [_, t2] => isError t2
     | _ => true)

/-- Insertion step for sorting a list of names. -/
def insertStr (s : String) : List String → List String
  | [] => [s]
  | t :: rest => if leStr s t then s :: t :: rest else t :: insertStr s rest

/-- Sorted list of names, the order the spec recommends for the name
listing. -/
def sortStrings : List String → List String
  | [] => []
  | s :: rest => insertStr s (sortStrings rest)

/-- The reflection of the test receiver's method Foo: no input, returns
the string Foo! and a nil error. -/
def fooMethod : Method where
  ins := []
  outs := [.tString, .tErr]
  impl := fun _ => [(.tString, .vStr "Foo!"), (.tErr, .vErr none)]

/-- The reflection of the test receiver's method FooErr: no input, always
returns a non-nil error. -/
def fooErrMethod : Method where
  ins := []
  outs := [.tString, .tErr]
  impl := fun _ => [(.tString, .vStr ""), (.tErr, .vErr (some "Foo error"))]

/-- The reflection of the test receiver's method Bar: one int input,
returns a string built from it and a nil error. -/
def barMethod : Method where
  ins := [.tInt]
  outs := [.tString, .tErr]
  impl := fun arg =>
    match arg with
    | some (.vInt n) => [(.tString, .vStr ("Bar " ++ toString n)), (.tErr, .vErr none)]
    | _ => [(.tString, .vStr "Bar ?"), (.tErr, .vErr none)]

/-- The reflection of the test receiver's method Fun: one pointer-to-thing
input, returns a string built from the struct's fields and a nil error. -/
def funMethod : Method where
  ins := [.tPtr .tThing]
  outs := [.tString, .tErr]
  impl := fun arg =>
    match arg with
    | some (.vPtr (some (.vThing i s))) =>
      [(.tString, .vStr ("Fun " ++ toString i ++ " " ++ s)), (.tErr, .vErr none)]
    | some (.vPtr none) =>
      [(.tString, .vStr "Fun nil"), (.tErr, .vErr none)]
    | _ => [(.tString, .vStr "Fun ?"), (.tErr, .vErr none)]

/-- A conforming method whose value output is a string map holding a
single entry under the key error: its successful encoding coincides with
the structural error payload. -/
def errShapedMethod : Method where
  ins := []
  outs := [.tMapSS, .tErr]
  impl := fun _ => [(.tMapSS, .vMapSS [("error", "oops")]), (.tErr, .vErr none)]

/-- An exported method violating the input-arity rule. -/
def twoInputsMethod : Method where
  ins := [.tInt, .tInt]
  outs := [.tString, .tErr]
  impl := fun _ => [(.tString, .vStr ""), (.tErr, .vErr none)]

/-- An unexported helper whose signature violates every rule; it must
never affect construction. -/
def uglyHelperMethod : Method where
  ins := [.tInt, .tInt, .tInt]
  outs := [.tErr, .tInt, .tString]
  impl := fun _ => []

/-- A demonstration registry with the test receiver's methods. -/
def demoFuncs : funcs :=
  [("Foo", fooMethod), ("FooErr", fooErrMethod), ("Bar", barMethod),
   ("Fun", funMethod)]

/-- A demonstration registry for the success/error payload ambiguity. -/
def shapeFuncs : funcs := [("Bad", errShapedMethod)]

/-- A two-method registry for the handler's name listing. -/
def abFuncs : funcs := [("A", fooMethod), ("B", fooMethod)]

/-- The reflected method set of a receiver with one conforming exported
method and one ill-shaped unexported helper. -/
def mixedReceiver : List (String × Method) :=
  [("Foo", fooMethod), ("helper", uglyHelperMethod)]

/-- The reflected method set of a receiver with an exported method that
violates the input-arity rule. -/
def badReceiver : List (String × Method) :=
  [("Foo", fooMethod), ("TooMany", twoInputsMethod)]

/-! Helper lemmas shared by the claim theorems. -/

/-- A list is a prefix of itself extended by anything. -/
theorem listIsPrefixOf_append (l₁ l₂ : List Char) :
    l₁.isPrefixOf (l₁ ++ l₂) = true := by
  induction l₁ with
  | nil => simp [List.isPrefixOf]
  | cons c l ih => simp [List.isPrefixOf, ih]

/-- The claims' calling convention coincides with the source's two
signature checks passing. -/
theorem conforming_iff_checks (m : Method) :
    conforming m = true ↔ (checkInputs m.ins = none ∧ checkOutputs m.outs = none) := by
  unfold conforming checkInputs checkOutputs
  rcases m.outs with _ | ⟨a, _ | ⟨b, _ | ⟨c, l⟩⟩⟩ <;>
    simp [Bool.and_eq_true]

/-- Argument preparation succeeding makes `call` invoke the function and
classify its outputs. -/
theorem call_prepared (fs : funcs) (name param : String) (m : Method)
    (arg : Option GoVal) (hlook : List.lookup name fs = some m)
    (hprep : prepared m param arg) :
    call fs name param = sortOutputs (m.impl arg) := by
  rcases hprep with ⟨t, v0, hins, hdec, harg⟩ | ⟨hlen, hparam, harg⟩
  · subst harg
    simp [call, hlook, hins, hdec]
  · subst harg
    subst hparam
    rcases hins : m.ins with _ | ⟨t1, _ | ⟨t2, ts⟩⟩
    · simp [call, hlook, hins]
    · exact absurd (by simp [hins]) hlen
    · simp [call, hlook, hins]

/-- The builder loop succeeds on a method set whose exported members all
conform, and appends exactly the exported names to the accumulator's. -/
theorem newFuncsAux_ok (ms : List (String × Method)) :
    ∀ acc : funcs,
      (∀ p ∈ ms, isUnexported p.1 = false → conforming p.2 = true) →
      ∃ r, newFuncsAux ms acc = .ok r ∧
        r.map Prod.fst =
          acc.map Prod.fst ++ (ms.filter fun p => !isUnexported p.1).map Prod.fst := by
  induction ms with
  | nil => exact fun acc _ => ⟨acc, rfl, by simp⟩
  | cons p rest ih =>
    intro acc h
    obtain ⟨name, m⟩ := p
    rcases hexp : isUnexported name with _ | _
    · have hconf := h (name, m) (List.mem_cons_self _ _) hexp
      obtain ⟨hin, hout⟩ := (conforming_iff_checks m).mp hconf
      obtain ⟨r, hr, hmap⟩ :=
        ih (acc ++ [(name, m)]) (fun q hq => h q (List.mem_cons_of_mem _ hq))
      refine ⟨r, ?_, ?_⟩
      · simpa [newFuncsAux, hexp, hin, hout] using hr
      · rw [hmap]
        simp [List.filter_cons, hexp]
    · obtain ⟨r, hr, hmap⟩ :=
        ih acc (fun q hq => h q (List.mem_cons_of_mem _ hq))
      refine ⟨r, ?_, ?_⟩
      · simpa [newFuncsAux, hexp] using hr
      · rw [hmap]
        simp [List.filter_cons, hexp]

/-- The builder loop fails whenever the method set contains an exported
non-conforming member. -/
theorem newFuncsAux_err (ms : List (String × Method)) :
    ∀ acc : funcs,
      (∃ p, p ∈ ms ∧ isUnexported p.1 = false ∧ conforming p.2 = false) →
      ∃ e, newFuncsAux ms acc = .error e := by
  induction ms with
  | nil =>
    rintro acc ⟨p, hp, -, -⟩
    cases hp
  | cons q rest ih =>
    rintro acc ⟨p, hp, hexp, hbad⟩
    obtain ⟨name, m⟩ := q
    rcases List.mem_cons.mp hp with heq | hmem
    · subst heq
      rcases hci : checkInputs m.ins with _ | e
      · rcases hco : checkOutputs m.outs with _ | e
        · exact absurd ((conforming_iff_checks m).mpr ⟨hci, hco⟩) (by simp [hbad])
        · exact ⟨"Function '" ++ name ++ "': " ++ e,
            by simp [newFuncsAux, hexp, hci, hco]⟩
      · exact ⟨"Function '" ++ name ++ "': " ++ e,
          by simp [newFuncsAux, hexp, hci]⟩
    · rcases hexpq : isUnexported name with _ | _
      · rcases hci : checkInputs m.ins with _ | e
        · rcases hco : checkOutputs m.outs with _ | e
          · obtain ⟨e, he⟩ := ih (acc ++ [(name, m)]) ⟨p, hmem, hexp, hbad⟩
            exact ⟨e, by simpa [newFuncsAux, hexpq, hci, hco] using he⟩
          · exact ⟨"Function '" ++ name ++ "': " ++ e,
              by simp [newFuncsAux, hexpq, hci, hco]⟩
        · exact ⟨"Function '" ++ name ++ "': " ++ e,
            by simp [newFuncsAux, hexpq, hci]⟩
      · obtain ⟨e, he⟩ := ih acc ⟨p, hmem, hexp, hbad⟩
        exact ⟨e, by simpa [newFuncsAux, hexpq] using he⟩

/-! Claim theorems. -/

/-- C2: for every receiver whose exported methods all satisfy the calling
convention (at most 1 input; at most 2 outputs with the second of two
error-typed), `newFuncs` succeeds and the registry's key set is exactly
the exported method names; unexported methods never appear and never cause
construction to fail, regardless of their signatures. -/
theorem newFuncs_conforming_receiver (ms : List (String × Method))
    (h : ∀ p ∈ ms, isUnexported p.1 = false → conforming p.2 = true) :
    ∃ r, newFuncs ms = .ok r ∧
      r.map Prod.fst = (ms.filter fun p => !isUnexported p.1).map Prod.fst := by
  obtain ⟨r, hr, hmap⟩ := newFuncsAux_ok ms [] h
  exact ⟨r, hr, by simpa using hmap⟩

/-- Witness for C2 on the mixed receiver: one conforming exported method,
one ill-shaped unexported helper; construction succeeds and registers
exactly the exported name. -/
theorem newFuncs_conforming_receiver_witness :
    ∃ r, newFuncs mixedReceiver = .ok r ∧
      r.map Prod.fst =
        (mixedReceiver.filter fun p => !isUnexported p.1).map Prod.fst :=
  newFuncs_conforming_receiver mixedReceiver (by decide)

/-- C3: for every receiver with at least one exported method violating the
arity rules (more than 1 input, more than 2 outputs, or a second-of-two
output that is not error-typed), `newFuncs` returns an error, hence no
registry — the Except result cannot also carry a partial registry. -/
theorem newFuncs_violating_receiver (ms : List (String × Method))
    (h : ∃ p, p ∈ ms ∧ isUnexported p.1 = false ∧ conforming p.2 = false) :
    ∃ e, newFuncs ms = .error e :=
  newFuncsAux_err ms [] h

/-- Witness for C3 on a receiver with a two-input exported method. -/
theorem newFuncs_violating_receiver_witness :
    ∃ e, newFuncs badReceiver = .error e :=
  newFuncs_violating_receiver badReceiver
    ⟨("TooMany", twoInputsMethod),
      List.mem_cons_of_mem _ (List.mem_cons_self _ _), by decide, by decide⟩

/-- C1: for every registry and every registered method with two outputs
(value, error), once the argument payload is prepared and the invocation
performed: a nil error output makes `call` return the JSON encoding of the
value output as the success payload, and a non-nil error output makes it
return the structural error payload built from that error's message — the
value output does not influence the response (it is discarded, as the
conclusion is independent of the universally quantified value). -/
theorem call_value_error_convention (fs : funcs) (name param : String)
    (m : Method) (arg : Option GoVal) (tv : GoType) (v : GoVal)
    (eo : Option String) (hlook : List.lookup name fs = some m)
    (_houts : m.outs = [tv, .tErr]) (hprep : prepared m param arg)
    (hout : m.impl arg = [(tv, v), (.tErr, .vErr eo)]) :
    (∀ s, eo = none → marshal v = some s → call fs name param = s) ∧
    (∀ msg, eo = some msg → call fs name param = jsonError msg) := by
  have hcall : call fs name param = sortOutputs (m.impl arg) :=
    call_prepared fs name param m arg hlook hprep
  constructor
  · intro s heo hm
    subst heo
    simp [hcall, hout, sortOutputs, finishOutputs, isNilV, hm]
  · intro msg heo
    subst heo
    simp [hcall, hout, sortOutputs, finishOutputs, isNilV, goFmt]

/-- Witness for C1: the Foo method returns (Foo!, nil) and `call` answers
with the JSON string encoding of Foo!. -/
theorem call_value_error_convention_witness :
    call demoFuncs "Foo" "" = "\"Foo!\"" :=
  (call_value_error_convention demoFuncs "Foo" "" fooMethod none
    .tString (.vStr "Foo!") none rfl rfl
    (Or.inr ⟨by decide, rfl, rfl⟩) rfl).1 "\"Foo!\"" rfl rfl

/-- C4: for every registered method, an argument payload that cannot be
prepared — the payload does not decode into the parameter type (malformed
JSON or type mismatch), or the payload is non-empty while the method takes
no input — makes `call` return a structural error payload; the conclusion
never mentions the method's callable, so the method is not invoked and no
invocation effect can occur. -/
theorem call_undecodable_payload (fs : funcs) (name param : String)
    (m : Method) (hlook : List.lookup name fs = some m) :
    (∀ t e, m.ins = [t] → unmarshal t param = .error e →
      call fs name param = jsonError ("Error decoding JSON: " ++ e)) ∧
    (m.ins.length ≠ 1 → param ≠ "" →
      call fs name param =
        jsonError ("Function '" ++ name ++ "' does not accept parameters.")) := by
  constructor
  · intro t e hins hdec
    simp [call, hlook, hins, hdec]
  · intro hlen hparam
    rcases hins : m.ins with _ | ⟨t1, _ | ⟨t2, ts⟩⟩
    · simp [call, hlook, hins, hparam]
    · exact absurd (by simp [hins]) hlen
    · simp [call, hlook, hins, hparam]

/-- Witness for C4: the malformed payload from the package's tests makes
`call` on Fun answer with the decoding-error payload. -/
theorem call_undecodable_payload_witness :
    call demoFuncs "Fun" "\x7b\"i\":7,\"s\":\"aaa\"\x7b" =
      jsonError ("Error decoding JSON: " ++ "invalid JSON input") :=
  (call_undecodable_payload demoFuncs "Fun" "\x7b\"i\":7,\"s\":\"aaa\"\x7b"
    funMethod rfl).1 (.tPtr .tThing) "invalid JSON input" rfl rfl

/-- C5: for every registered method, a single output is classified by its
type, not its position: an error-typed single output makes the method a
void method that can still fail (non-nil error gives the error payload,
nil error the empty success payload), a non-error single output is encoded
as the JSON success payload, and zero outputs give the empty success
payload. -/
theorem call_single_output_classified (fs : funcs) (name param : String)
    (m : Method) (arg : Option GoVal) (hlook : List.lookup name fs = some m)
    (hprep : prepared m param arg) :
    (∀ msg, m.impl arg = [(.tErr, .vErr (some msg))] →
      call fs name param = jsonError msg) ∧
    (m.impl arg = [(.tErr, .vErr none)] → call fs name param = "") ∧
    (∀ t v s, m.impl arg = [(t, v)] → isError t = false → marshal v = some s →
      call fs name param = s) ∧
    (m.impl arg = [] → call fs name param = "") := by
  have hcall : call fs name param = sortOutputs (m.impl arg) :=
    call_prepared fs name param m arg hlook hprep
  refine ⟨?_, ?_, ?_, ?_⟩
  · intro msg hout
    simp [hcall, hout, sortOutputs, finishOutputs, isError, isNilV, goFmt]
  · intro hout
    simp [hcall, hout, sortOutputs, finishOutputs, isError, isNilV]
  · intro t v s hout ht hm
    simp [hcall, hout, sortOutputs, finishOutputs, ht, hm]
  · intro hout
    simp [hcall, hout, sortOutputs, finishOutputs]

/-- Witness for C5: a void method whose single error output is non-nil
yields exactly the error payload carrying its message. -/
theorem call_single_output_classified_witness :
    call [("Ping", Method.mk [] [.tErr]
        (fun _ => [(.tErr, .vErr (some "ping failed"))]))] "Ping" "" =
      jsonError "ping failed" :=
  (call_single_output_classified
    [("Ping", Method.mk [] [.tErr] (fun _ => [(.tErr, .vErr (some "ping failed"))]))]
    "Ping" ""
    (Method.mk [] [.tErr] (fun _ => [(.tErr, .vErr (some "ping failed"))]))
    none rfl (Or.inr ⟨by decide, rfl, rfl⟩)).1 "ping failed" rfl

/-- C7: round-trip — for every registered method whose single parameter is
the pointer-shaped struct type, a payload parsing to the JSON object with
members i and s makes `call` invoke the method with a pointer to a struct
whose field values are exactly the i and s the JSON described: the
response is precisely the classification of the outputs of the callable
applied to that argument, with no truncation or defaulting of either
field. -/
theorem call_ptr_roundtrip (fs : funcs) (name param : String) (m : Method)
    (i : Int) (s : String) (hlook : List.lookup name fs = some m)
    (hins : m.ins = [.tPtr .tThing])
    (hparse : parseJson param = some (.obj [("i", .num i), ("s", .str s)])) :
    call fs name param = sortOutputs (m.impl (some (.vPtr (some (.vThing i s))))) := by
  have hdec : unmarshal (.tPtr .tThing) param = .ok (.vPtr (some (.vThing i s))) := by
    unfold unmarshal
    rw [hparse]
    rfl
  exact call_prepared fs name param m (some (.vPtr (some (.vThing i s)))) hlook
    (Or.inl ⟨.tPtr .tThing, .vPtr (some (.vThing i s)), hins, hdec, rfl⟩)

/-- Witness for C7: the tests' payload for Fun decodes to the struct with
I = 7 and S = aaa, and the call is the classification of Fun's outputs at
exactly that argument. -/
theorem call_ptr_roundtrip_witness :
    call demoFuncs "Fun" "\x7b\"i\":7,\"s\":\"aaa\"\x7d" =
      sortOutputs (funMethod.impl (some (.vPtr (some (.vThing 7 "aaa"))))) :=
  call_ptr_roundtrip demoFuncs "Fun" "\x7b\"i\":7,\"s\":\"aaa\"\x7d"
    funMethod 7 "aaa" rfl rfl rfl

/-- C10: for every registered method whose single parameter is a pointer
type, the payload null decodes successfully — the dispatcher decodes into
a fresh instance of the pointer type, so the pointer comes back nil — and
the method is invoked with the nil pointer, with no nil check before the
call: the response is exactly the classification of the callable's
outputs at the nil-pointer argument. -/
theorem call_null_pointer (fs : funcs) (name : String) (m : Method)
    (t : GoType) (hlook : List.lookup name fs = some m)
    (hins : m.ins = [.tPtr t]) :
    call fs name "null" = sortOutputs (m.impl (some (.vPtr none))) := by
  have hdec : unmarshal (.tPtr t) "null" = .ok (.vPtr none) := by
    have hp : parseJson "null" = some .null := rfl
    unfold unmarshal
    rw [hp]
    rfl
  exact call_prepared fs name "null" m (some (.vPtr none)) hlook
    (Or.inl ⟨.tPtr t, .vPtr none, hins, hdec, rfl⟩)

/-- Witness for C10: calling Fun with the null payload reaches Fun's
callable with a nil pointer. -/
theorem call_null_pointer_witness :
    call demoFuncs "Fun" "null" = sortOutputs (funMethod.impl (some (.vPtr none))) :=
  call_null_pointer demoFuncs "Fun" funMethod .tThing rfl rfl

/-- C6 counterexample: the handler builds the name listing by ranging over
the registry map, whose iteration order is unspecified; the order that
enumerates B before A is a permutation of the key set, yet the response it
produces is not the sorted array, and two valid iteration orders produce
different responses, so the listing is neither sorted nor deterministic. -/
theorem handler_funcs_not_sorted_cex :
    (["B", "A"] : List String).Perm (abFuncs.map Prod.fst) ∧
    (["A", "B"] : List String).Perm (abFuncs.map Prod.fst) ∧
    handlerResponse abFuncs ["B", "A"] "funcs" "" ≠
      jsonStrArray (sortStrings (abFuncs.map Prod.fst)) ++ "\n" ∧
    handlerResponse abFuncs ["B", "A"] "funcs" "" ≠
      handlerResponse abFuncs ["A", "B"] "funcs" "" := by
  refine ⟨by decide, by decide, by decide, by decide⟩

/-- C6 amended: querying the reserved name funcs is intercepted before any
registry lookup — the response is computed without consulting the map, so
it shadows any registered method of that name — and returns a JSON array
whose elements are exactly the registry's key set with no omissions and,
when the keys are distinct, no duplicates; its order is the map's
iteration order, an arbitrary permutation of the keys, not necessarily
sorted and not deterministic. -/
theorem handler_funcs_names_amended (f : funcs) (enum : List String)
    (param : String) (hperm : enum.Perm (f.map Prod.fst)) :
    handlerResponse f enum "funcs" param = jsonStrArray enum ++ "\n" ∧
    (∀ s, s ∈ enum ↔ s ∈ f.map Prod.fst) ∧
    ((f.map Prod.fst).Nodup → enum.Nodup) :=
  ⟨rfl, fun _ => hperm.mem_iff, fun h => hperm.nodup_iff.mpr h⟩

/-- Witness for the amended C6 on the two-method registry with the
reversed iteration order. -/
theorem handler_funcs_names_amended_witness :
    handlerResponse abFuncs ["B", "A"] "funcs" "" = jsonStrArray ["B", "A"] ++ "\n" ∧
    (∀ s, s ∈ (["B", "A"] : List String) ↔ s ∈ abFuncs.map Prod.fst) ∧
    ((abFuncs.map Prod.fst).Nodup → (["B", "A"] : List String).Nodup) :=
  handler_funcs_names_amended abFuncs ["B", "A"] "" (by decide)

/-- C8 counterexample: the one-input method Bar called with the empty
payload is rejected with a decoding-error payload — the empty payload is
not acceptable for a method that expects an argument, because
`json.Unmarshal` fails on empty input. -/
theorem call_empty_payload_cex :
    call demoFuncs "Bar" "" = jsonError ("Error decoding JSON: " ++ "invalid JSON input") ∧
    isJsonError (call demoFuncs "Bar" "") = true := by
  refine ⟨by decide, by decide⟩

/-- C8 amended: an empty payload never triggers the does-not-accept-
parameters rejection: a method with no input is always invoked on the
empty payload; a one-input method, however, hands the empty payload to the
JSON decoder, which always fails on empty input, so the call answers with
a decoding-error payload without invoking the method. -/
theorem call_empty_payload_amended (fs : funcs) (name : String) (m : Method)
    (hlook : List.lookup name fs = some m) :
    (m.ins.length ≠ 1 → call fs name "" = sortOutputs (m.impl none)) ∧
    (∀ t, m.ins = [t] →
      call fs name "" = jsonError ("Error decoding JSON: " ++ "invalid JSON input")) := by
  constructor
  · intro hlen
    exact call_prepared fs name "" m none hlook (Or.inr ⟨hlen, rfl, rfl⟩)
  · intro t hins
    have hdec : unmarshal t "" = .error "invalid JSON input" := rfl
    simp [call, hlook, hins, hdec]

/-- Witness for the amended C8: Foo (no input) is invoked on the empty
payload; Bar (one int input) gets the decoding-error payload. -/
theorem call_empty_payload_amended_witness :
    call demoFuncs "Foo" "" = sortOutputs (fooMethod.impl none) ∧
    call demoFuncs "Bar" "" = jsonError ("Error decoding JSON: " ++ "invalid JSON input") :=
  ⟨(call_empty_payload_amended demoFuncs "Foo" fooMethod rfl).1 (by decide),
   (call_empty_payload_amended demoFuncs "Bar" barMethod rfl).2 .tInt rfl⟩

/-- C9 counterexample: a successful call is not structurally
distinguishable from a failure: the method Bad returns a nil error
together with a map value holding the single key error, its invocation is
a success whose payload is the JSON encoding of that value, and that
payload is exactly the structural error payload for the message oops. -/
theorem call_success_error_shape_cex :
    errShapedMethod.impl none =
      [(.tMapSS, .vMapSS [("error", "oops")]), (.tErr, .vErr none)] ∧
    marshal (.vMapSS [("error", "oops")]) = some (jsonError "oops") ∧
    call shapeFuncs "Bad" "" = jsonError "oops" ∧
    isJsonError (call shapeFuncs "Bad" "") = true := by
  refine ⟨rfl, by decide, by decide, by decide⟩

/-- C9 amended: the structural check is sound for failures — every
structural error payload the dispatcher emits carries the error-object
shape the client helper tests for — but it is not a complete test of
success, since a success payload can coincide with that shape (see the
counterexample). -/
theorem call_failure_shape_amended (msg : String) :
    isJsonError (jsonError msg) = true := by
  have h : jsonError msg = "\x7b\"error\":" ++ (jsonQuote msg ++ "\x7d") := rfl
  unfold isJsonError
  rw [h]
  have hdata : ("\x7b\"error\":" ++ (jsonQuote msg ++ "\x7d")).data =
      "\x7b\"error\":".data ++ (jsonQuote msg ++ "\x7d").data := rfl
  rw [hdata]
  exact listIsPrefixOf_append _ _
